import Mathlib

/-!
Verification of the paged-attention page-table manager
(`jetstream_pt/page_attention_manager.py`).

The manager keeps a FIFO free list of page indices (`unused_pages`, a
`queue.Queue` in the source, front of the list = next element dequeued),
a `batch_size x max_pages_per_sequence` table of page indices
(`page_indices`, an `int32` array), and a per-slot length vector
(`lengths`).  KV cache tensors are modelled with the token-position
structure explicit and the head and feature axes elided, since every
operation of the source treats those axes pointwise: a paged decode cache
is a list of `total_pages` pages, each a list of `page_size` values, and a
prefill cache is a flat list of values.  Machine integers are modelled as
`Int` (the values involved stay far from the `int32` range, so overflow is
immaterial); Python floor division and modulus on integers correspond to
`Int.ediv` and `Int.emod` for a positive divisor.
-/

/-- Index computation of an array gather (`x[i]` on a jax array axis of size
`n`): a negative index is wrapped by the axis size, and the result is clamped
into `[0, n-1]`. -/
def jnpIdx (n : Nat) (i : Int) : Nat :=
  min (if i < 0 then i + n else i).toNat (n - 1)

/-- Clamped gather of one scalar from an integer vector at a nonnegative
position. -/
def jnpGetI (xs : List Int) (i : Nat) : Int :=
  xs.getD (min i (xs.length - 1)) 0

/-- Clamped row select `page_indices[slot]` from the page table. -/
def jnpRow (t : List (List Int)) (slot : Nat) : List Int :=
  t.getD (min slot (t.length - 1)) []

/-- Gather of one page `cache[:, i, :, :]` from a paged cache tensor. -/
def jnpGetPage (cache : List (List Int)) (i : Int) : List Int :=
  cache.getD (jnpIdx cache.length i) []

/-- `row.at[:vals.length].set(vals)`: overwrite the leading entries of a row,
keeping the row's shape. -/
def setRowSlice (row vals : List Int) : List Int :=
  (vals ++ row.drop vals.length).take row.length

/-- Reshape a flat buffer into `n` pages of `ps` positions each
(`jnp.reshape(k, (kv_heads, -1, page_size, dim))` with the head and feature
axes elided). -/
def toPages (ps : Nat) : Nat → List Int → List (List Int)
  | 0, _ => []
  | n + 1, xs => xs.take ps :: toPages ps n (xs.drop ps)

/-- Scatter pages into a paged cache at the given page indices
(`cache.at[:, update_indexes, :, :].set(pages)`): a negative index is wrapped
by the axis size and an index that is then out of bounds is dropped, the
default jax scatter behavior. -/
def scatterPages : List (List Int) → List Int → List (List Int) →
    List (List Int)
  | cache, [], _ => cache
  | cache, _, [] => cache
  | cache, i :: is, pg :: pgs =>
    let j : Int := if i < 0 then i + cache.length else i
    scatterPages (if 0 ≤ j then cache.set j.toNat pg else cache) is pgs

/-- Ceiling division: the number of pages needed for `a` token positions of
page size `b`. -/
def ceilNat (a b : Nat) : Nat := (a + b - 1) / b

/-- State of the `PageAttentionManager` object: construction-time
configuration, the FIFO free list, the page table and the length vector. -/
structure PageAttentionManager where
  batch_size : Nat
  paged_attention_total_num_pages : Nat
  paged_attention_page_size : Nat
  max_pages_per_sequence : Nat
  unused_pages : List Int
  page_indices : List (List Int)
  lengths : List Int
  deriving DecidableEq, Repr

namespace PageAttentionManager

/-- `PageAttentionManager.__init__`: the page table is filled with
`total_num_pages - 1`, the lengths with `0`, and the free queue with
`0 .. total_num_pages - 1` in order. -/
def init (batch_size paged_attention_total_num_pages paged_attention_page_size
    max_pages_per_sequence : Nat) : PageAttentionManager :=
  { batch_size := batch_size
    paged_attention_total_num_pages := paged_attention_total_num_pages
    paged_attention_page_size := paged_attention_page_size
    max_pages_per_sequence := max_pages_per_sequence
    unused_pages := (List.range paged_attention_total_num_pages).map Int.ofNat
    page_indices := List.replicate batch_size
      (List.replicate max_pages_per_sequence
        ((paged_attention_total_num_pages : Int) - 1))
    lengths := List.replicate batch_size 0 }

/-- `reserve_pages_insert(slot, seq_len)`.  The source first sets
`lengths[slot] = seq_len`, then computes `num_pages` and dequeues that many
free pages one at a time; if the queue runs dry the `queue.Empty` exception
propagates after the queue has been fully drained and before `page_indices`
is touched.  The first component is `some (num_pages, assigned)` on success
and `none` on exhaustion; the second component is the manager state when the
call returns or raises. -/
def reserve_pages_insert (m : PageAttentionManager) (slot : Nat)
    (seq_len : Nat) : Option (Nat × List Int) × PageAttentionManager :=
  let lengths := m.lengths.set slot (seq_len : Int)
  let ps := m.paged_attention_page_size
  let num_pages := if seq_len % ps = 0 then seq_len / ps else seq_len / ps + 1
  if num_pages ≤ m.unused_pages.length then
    let indices := m.unused_pages.take num_pages
    let page_indices :=
      m.page_indices.set slot (setRowSlice (jnpRow m.page_indices slot) indices)
    (some (num_pages, (jnpRow page_indices slot).take num_pages),
     { m with lengths := lengths
              unused_pages := m.unused_pages.drop num_pages
              page_indices := page_indices })
  else
    (none, { m with lengths := lengths, unused_pages := [] })

/-- `reserve_pages_decode(slot, seq_len)`: on a positive page boundary,
dequeue one page and write it at row position `seq_len // page_size`
(`none` models the `queue.Empty` exception, raised before any mutation);
otherwise do nothing. -/
def reserve_pages_decode (m : PageAttentionManager) (slot : Nat)
    (seq_len : Int) : Option PageAttentionManager :=
  if 0 < seq_len ∧ seq_len.emod m.paged_attention_page_size = 0 then
    match m.unused_pages with
    | [] => none
    | index :: rest =>
      let num_pages := (seq_len.ediv m.paged_attention_page_size).toNat
      some { m with
        unused_pages := rest
        page_indices := m.page_indices.set slot
          ((jnpRow m.page_indices slot).set num_pages index) }
  else some m

/-- Loop body of `fill_new_pages`: apply `reserve_pages_decode` to each slot
in order, propagating the exhaustion exception. -/
def fillAux (lens : List Int) :
    PageAttentionManager → List Nat → Option PageAttentionManager
  | m, [] => some m
  | m, slot :: rest =>
    match reserve_pages_decode m slot (jnpGetI lens slot) with
    | none => none
    | some m2 => fillAux lens m2 rest

/-- `fill_new_pages(lens)`: `reserve_pages_decode` for every slot. -/
def fill_new_pages (m : PageAttentionManager) (lens : List Int) :
    Option PageAttentionManager :=
  fillAux lens m (List.range m.batch_size)

/-- Per-tensor body of `insert_prefill_cache`: write the (squeezed) prefill
into the scratch buffer `tep_kv` at offset 0, reshape into pages, scatter
those pages into the decode cache at `update_indexes`. -/
def insertOneCache (ps : Nat) (update_indexes : List Int) (tep_kv : List Int)
    (prefill : List Int) (cache : List (List Int)) : List (List Int) :=
  let tmp := (prefill ++ tep_kv.drop prefill.length).take tep_kv.length
  let paged := toPages ps (tmp.length / ps) tmp
  scatterPages cache update_indexes paged

/-- `insert_prefill_cache(prefill_caches, decode_caches, update_indexes,
tep_kv, sharding)`: every layer's K and V are padded via the scratch buffer,
paged and scattered at the same `update_indexes` (the sharding constraint is
a physical-layout hint with no effect on values). -/
def insert_prefill_cache (m : PageAttentionManager)
    (prefill_caches : List (List Int × List Int))
    (decode_caches : List (List (List Int) × List (List Int)))
    (update_indexes : List Int) (tep_kv : List Int) :
    List (List (List Int) × List (List Int)) :=
  (decode_caches.zip prefill_caches).map (fun p =>
    (insertOneCache m.paged_attention_page_size update_indexes tep_kv p.2.1 p.1.1,
     insertOneCache m.paged_attention_page_size update_indexes tep_kv p.2.2 p.1.2))

/-- Loop of `get_page_token_indices`: for each slot with nonzero `lens[slot]`
emit `(page_index, offset + token_pos, slot)` and advance `offset` by the
page size; slots with zero length are skipped. -/
def gptiAux (m : PageAttentionManager) (lens : List Int) :
    Int → List Nat → List (Int × Int × Nat)
  | _, [] => []
  | offset, slot :: rest =>
    let seq_len := jnpGetI lens slot
    if seq_len = 0 then gptiAux m lens offset rest
    else
      let ps : Int := m.paged_attention_page_size
      let num_pages := seq_len.ediv ps + 1
      let token_pos := seq_len.emod ps
      let row := jnpRow m.page_indices slot
      let page_index := row.getD (jnpIdx row.length (num_pages - 1)) 0
      (page_index, offset + token_pos, slot) :: gptiAux m lens (offset + ps) rest

/-- `get_page_token_indices(lens)`: the emitted
`(update_page_index, token_scale_index, batch_slot)` triples, plus the
updated manager whose length vector becomes
`jnp.where(lens == 0, 0, lens + 1)`. -/
def get_page_token_indices (m : PageAttentionManager) (lens : List Int) :
    List (Int × Int × Nat) × PageAttentionManager :=
  (gptiAux m lens 0 (List.range m.batch_size),
   { m with lengths := lens.map (fun l => if l = 0 then 0 else l + 1) })

/-- `_compress_cache(cache, lens, indices)`: gather the full page row from
the cache, flatten along the token axis, and keep the first `lens`
positions. -/
def _compress_cache (cache : List (List Int)) (lens : Int)
    (indices : List Int) : List Int :=
  ((indices.map (fun i => jnpGetPage cache i)).flatten).take lens.toNat

/-- `get_compress_kv_cache(decode_caches, slot)`: compress every layer's K
and V at the slot's length and page row. -/
def get_compress_kv_cache (m : PageAttentionManager)
    (decode_caches : List (List (List Int) × List (List Int))) (slot : Nat) :
    List (List Int × List Int) :=
  decode_caches.map (fun p =>
    (_compress_cache p.1 (jnpGetI m.lengths slot) (jnpRow m.page_indices slot),
     _compress_cache p.2 (jnpGetI m.lengths slot) (jnpRow m.page_indices slot)))

/-- `free_pages_resource(slot)`: walk the slot's row, enqueueing entries into
the free list until a negative entry is met, then reset the whole row to `0`
(`.at[slot, :].set(jnp.asarray([0]))` broadcasts the `0`).  The length
vector is not touched. -/
def free_pages_resource (m : PageAttentionManager) (slot : Nat) :
    PageAttentionManager :=
  let row := jnpRow m.page_indices slot
  let freed := ((List.range m.max_pages_per_sequence).map
    (fun i => jnpGetI row i)).takeWhile (fun x => decide (0 ≤ x))
  { m with
    unused_pages := m.unused_pages ++ freed
    page_indices := m.page_indices.set slot (List.replicate row.length 0) }

/-- States reachable from a freshly constructed manager with at least one
page, under any sequence of mutating calls, including calls that raise
(an exhausted `reserve_pages_insert` leaves its partially mutated state; an
exhausted `reserve_pages_decode` or `fill_new_pages` mutates nothing before
raising, so its pre-state is already reachable). -/
inductive Reach : PageAttentionManager → Prop
  | construct (b tp ps mp : Nat) (htp : 1 ≤ tp) : Reach (init b tp ps mp)
  | insert_step (m : PageAttentionManager) (slot seq_len : Nat) :
      Reach m → Reach (reserve_pages_insert m slot seq_len).2
  | decode_step (m m2 : PageAttentionManager) (slot : Nat) (seq_len : Int) :
      Reach m → reserve_pages_decode m slot seq_len = some m2 → Reach m2
  | fill_step (m m2 : PageAttentionManager) (lens : List Int) :
      Reach m → fill_new_pages m lens = some m2 → Reach m2
  | free_step (m : PageAttentionManager) (slot : Nat) :
      Reach m → Reach (free_pages_resource m slot)

/-- All free-list entries and all page-table entries are nonnegative. -/
def AllNonneg (m : PageAttentionManager) : Prop :=
  (∀ x ∈ m.unused_pages, 0 ≤ x) ∧
    ∀ row ∈ m.page_indices, ∀ x ∈ row, 0 ≤ x

end PageAttentionManager

/-- The branching page count computed by `reserve_pages_insert` is the
ceiling of `a / b`. -/
theorem branch_count_eq_ceilNat (a b : Nat) (hb : 1 ≤ b) :
    (if a % b = 0 then a / b else a / b + 1) = ceilNat a b := by
  have h0 : 0 < b := hb
  have hmod := Nat.mod_lt a h0
  have hrw : a + b - 1 = a % b + (b - 1) + b * (a / b) := by
    have := Nat.div_add_mod a b
    omega
  unfold ceilNat
  rw [hrw, Nat.add_mul_div_left _ _ h0]
  by_cases h : a % b = 0
  · rw [if_pos h]
    have hlt : (a % b + (b - 1)) / b = 0 := Nat.div_eq_of_lt (by omega)
    omega
  · rw [if_neg h]
    have hone : (a % b + (b - 1)) / b = 1 :=
      Nat.div_eq_of_lt_le (by omega) (by omega)
    omega

/-- A sequence of `a` positions fits in `ceilNat a b` pages of size `b`. -/
theorem le_ceilNat_mul (a b : Nat) (hb : 1 ≤ b) : a ≤ ceilNat a b * b := by
  have hdm := Nat.div_add_mod (a + b - 1) b
  have hmod := Nat.mod_lt (a + b - 1) (show 0 < b from hb)
  unfold ceilNat
  rw [Nat.mul_comm]
  omega

/-- C1: the claim states that for every sequence of reserve, decode-grow and
free calls from a fresh manager, the live page indices and the free pool are
disjoint and together cover `[0, total_pages)` exactly once.  The code
violates this: starting from `init 1 3 1 2` (one slot, three pages of size
one, two rows), reserving slot 0 with `seq_len = 1` and then freeing slot 0
leaves the pool `[1, 2, 0, 2]`, in which the sentinel page `2` occurs twice,
while the slot's single live entry (length still `1`, row `[0, 0]`) is the
page `0` that is simultaneously in the pool. -/
theorem C1_partition_violated_at_free :
    (((PageAttentionManager.init 1 3 1 2).reserve_pages_insert 0 1).2.free_pages_resource
        0).unused_pages = [1, 2, 0, 2] ∧
    (((PageAttentionManager.init 1 3 1 2).reserve_pages_insert 0 1).2.free_pages_resource
        0).lengths = [1] ∧
    (((PageAttentionManager.init 1 3 1 2).reserve_pages_insert 0 1).2.free_pages_resource
        0).page_indices = [[0, 0]] ∧
    ¬ List.Nodup
      ((((PageAttentionManager.init 1 3 1 2).reserve_pages_insert 0 1).2.free_pages_resource
        0).unused_pages ++ [0]) := by
  decide

/-- C3: the claim states that `free_pages_resource(slot)` releases exactly
the live entries of the slot's row, resets the row to an inert sentinel and
zeroes `lengths[slot]`.  The code instead releases every row entry (the live
page `0` and the filler sentinel `2`, although `ceil(1/1) = 1` entry is
live), resets the row to the real page index `0`, and leaves the length at
`1`. -/
theorem C3_free_releases_full_row_and_keeps_length :
    (((PageAttentionManager.init 1 3 1 2).reserve_pages_insert 0 1).2.free_pages_resource
        0).unused_pages =
      ((PageAttentionManager.init 1 3 1 2).reserve_pages_insert 0 1).2.unused_pages
        ++ [0, 2] ∧
    ((PageAttentionManager.init 1 3 1 2).reserve_pages_insert 0 1).2.lengths = [1] ∧
    (((PageAttentionManager.init 1 3 1 2).reserve_pages_insert 0 1).2.free_pages_resource
        0).lengths = [1] := by
  decide

/-- C2 counterexample: the claim states that an exhausted
`reserve_pages_insert` leaves `page_indices` and `lengths` exactly as they
were.  With one total page, after a successful reservation of slot 0 the
lengths are `[1, 0]`; the failing reservation of slot 1 returns the
out-of-pages error yet leaves the lengths `[1, 1]`: the length of the
failing slot was written before the pool was consulted. -/
theorem C2_lengths_mutated_on_failure :
    ((((PageAttentionManager.init 2 1 1 1).reserve_pages_insert 0 1).2).reserve_pages_insert
        1 1).1 = none ∧
    (((PageAttentionManager.init 2 1 1 1).reserve_pages_insert 0 1).2).lengths = [1, 0] ∧
    ((((PageAttentionManager.init 2 1 1 1).reserve_pages_insert 0 1).2).reserve_pages_insert
        1 1).2.lengths = [1, 1] := by
  decide

/-- C2 as amended: when fewer free pages are available than
`ceil(seq_len / page_size)`, the call fails with the out-of-pages error
without writing the page table, but only after `lengths[slot]` has been set
to `seq_len`, and the surviving free pages are drained from the pool. -/
theorem C2_amended_failure_state (m : PageAttentionManager) (slot seq_len : Nat)
    (hps : 1 ≤ m.paged_attention_page_size)
    (h : m.unused_pages.length < ceilNat seq_len m.paged_attention_page_size) :
    (m.reserve_pages_insert slot seq_len).1 = none ∧
    (m.reserve_pages_insert slot seq_len).2.page_indices = m.page_indices ∧
    (m.reserve_pages_insert slot seq_len).2.lengths
      = m.lengths.set slot (seq_len : Int) ∧
    (m.reserve_pages_insert slot seq_len).2.unused_pages = [] := by
  have hnp := branch_count_eq_ceilNat seq_len m.paged_attention_page_size hps
  simp only [PageAttentionManager.reserve_pages_insert]
  rw [hnp, if_neg (by omega)]
  exact ⟨rfl, rfl, rfl, rfl⟩

/-- Witness for `C2_amended_failure_state` at a concrete exhausted state. -/
theorem C2_amended_failure_state_witness :
    (1 ≤ (PageAttentionManager.init 1 0 1 1).paged_attention_page_size ∧
      (PageAttentionManager.init 1 0 1 1).unused_pages.length
        < ceilNat 1 (PageAttentionManager.init 1 0 1 1).paged_attention_page_size) ∧
    (((PageAttentionManager.init 1 0 1 1).reserve_pages_insert 0 1).1 = none ∧
      ((PageAttentionManager.init 1 0 1 1).reserve_pages_insert 0 1).2.page_indices
        = (PageAttentionManager.init 1 0 1 1).page_indices ∧
      ((PageAttentionManager.init 1 0 1 1).reserve_pages_insert 0 1).2.lengths
        = (PageAttentionManager.init 1 0 1 1).lengths.set 0 (1 : Int) ∧
      ((PageAttentionManager.init 1 0 1 1).reserve_pages_insert 0 1).2.unused_pages
        = []) :=
  ⟨⟨by decide, by decide⟩,
    C2_amended_failure_state (PageAttentionManager.init 1 0 1 1) 0 1
      (by decide) (by decide)⟩

/-- A clamped gather from a vector of nonnegative entries is nonnegative. -/
theorem jnpGetI_nonneg (xs : List Int) (i : Nat) (h : ∀ x ∈ xs, 0 ≤ x) :
    0 ≤ jnpGetI xs i := by
  unfold jnpGetI
  by_cases hlt : min i (xs.length - 1) < xs.length
  · rw [List.getD_eq_getElem _ _ hlt]
    exact h _ (List.getElem_mem hlt)
  · rw [List.getD_eq_default _ _ (by omega)]

/-- The clamped row select returns a table row or the empty list. -/
theorem jnpRow_mem_or_nil (t : List (List Int)) (slot : Nat) :
    jnpRow t slot ∈ t ∨ jnpRow t slot = [] := by
  unfold jnpRow
  by_cases hlt : min slot (t.length - 1) < t.length
  · rw [List.getD_eq_getElem _ _ hlt]
    exact Or.inl (List.getElem_mem hlt)
  · rw [List.getD_eq_default _ _ (by omega)]
    exact Or.inr rfl

/-- `takeWhile` keeps the whole list when the predicate holds everywhere. -/
theorem takeWhile_eq_self_of_all {α : Type} (p : α → Bool) :
    ∀ l : List α, (∀ x ∈ l, p x = true) → l.takeWhile p = l := by
  intro l
  induction l with
  | nil => intro _; rfl
  | cons a l ih =>
    intro h
    have ha := h a (List.mem_cons_self a l)
    simp [List.takeWhile_cons, ha, ih (fun x hx => h x (List.mem_cons_of_mem a hx))]

namespace PageAttentionManager

/-- Construction establishes nonnegativity of all stored page indices. -/
theorem allNonneg_init (b tp ps mp : Nat) (htp : 1 ≤ tp) :
    AllNonneg (init b tp ps mp) := by
  constructor
  · intro x hx
    simp only [init, List.mem_map, List.mem_range] at hx
    obtain ⟨n, _, rfl⟩ := hx
    exact Int.ofNat_nonneg n
  · intro row hrow x hx
    simp only [init] at hrow
    rw [List.eq_of_mem_replicate hrow] at hx
    rw [List.eq_of_mem_replicate hx]
    omega

/-- `reserve_pages_insert` preserves nonnegativity, also when it raises. -/
theorem allNonneg_reserve_pages_insert (m : PageAttentionManager)
    (slot seq_len : Nat) (h : AllNonneg m) :
    AllNonneg (m.reserve_pages_insert slot seq_len).2 := by
  obtain ⟨hpool, hrows⟩ := h
  simp only [reserve_pages_insert]
  by_cases hle : (if seq_len % m.paged_attention_page_size = 0 then
      seq_len / m.paged_attention_page_size
      else seq_len / m.paged_attention_page_size + 1) ≤ m.unused_pages.length
  · rw [if_pos hle]
    refine ⟨fun x hx => hpool x (List.mem_of_mem_drop hx), ?_⟩
    intro row hrow x hx
    rcases List.mem_or_eq_of_mem_set hrow with hmem | rfl
    · exact hrows row hmem x hx
    · have hx2 := List.mem_of_mem_take hx
      rcases List.mem_append.mp hx2 with hl | hr
      · exact hpool x (List.mem_of_mem_take hl)
      · have hx3 := List.mem_of_mem_drop hr
        rcases jnpRow_mem_or_nil m.page_indices slot with hmem | hnil
        · exact hrows _ hmem x hx3
        · rw [hnil] at hx3
          exact absurd hx3 (List.not_mem_nil x)
  · rw [if_neg hle]
    exact ⟨fun x hx => absurd hx (List.not_mem_nil x), hrows⟩

/-- `reserve_pages_decode` preserves nonnegativity. -/
theorem allNonneg_reserve_pages_decode (m m2 : PageAttentionManager)
    (slot : Nat) (seq_len : Int)
    (hstep : m.reserve_pages_decode slot seq_len = some m2)
    (h : AllNonneg m) : AllNonneg m2 := by
  obtain ⟨hpool, hrows⟩ := h
  unfold reserve_pages_decode at hstep
  by_cases hcond : 0 < seq_len ∧ seq_len.emod m.paged_attention_page_size = 0
  · rw [if_pos hcond] at hstep
    cases hq : m.unused_pages with
    | nil => rw [hq] at hstep; exact absurd hstep (by simp)
    | cons index rest =>
      rw [hq] at hstep
      simp only [Option.some.injEq] at hstep
      subst hstep
      have hindex : 0 ≤ index := hpool index (by rw [hq]; exact List.mem_cons_self index rest)
      refine ⟨fun x hx => hpool x (by rw [hq]; exact List.mem_cons_of_mem _ hx), ?_⟩
      intro row hrow x hx
      rcases List.mem_or_eq_of_mem_set hrow with hmem | rfl
      · exact hrows row hmem x hx
      · rcases List.mem_or_eq_of_mem_set hx with hx2 | rfl
        · rcases jnpRow_mem_or_nil m.page_indices slot with hmem | hnil
          · exact hrows _ hmem x hx2
          · rw [hnil] at hx2
            exact absurd hx2 (List.not_mem_nil x)
        · exact hindex
  · rw [if_neg hcond] at hstep
    simp only [Option.some.injEq] at hstep
    subst hstep
    exact ⟨hpool, hrows⟩

/-- The `fill_new_pages` loop preserves nonnegativity. -/
theorem allNonneg_fillAux (lens : List Int) :
    ∀ (slots : List Nat) (m m2 : PageAttentionManager),
      fillAux lens m slots = some m2 → AllNonneg m → AllNonneg m2 := by
  intro slots
  induction slots with
  | nil =>
    intro m m2 hstep h
    simp only [fillAux, Option.some.injEq] at hstep
    subst hstep
    exact h
  | cons slot rest ih =>
    intro m m2 hstep h
    simp only [fillAux] at hstep
    cases hd : m.reserve_pages_decode slot (jnpGetI lens slot) with
    | none => rw [hd] at hstep; exact absurd hstep (by simp)
    | some m1 =>
      rw [hd] at hstep
      exact ih m1 m2 hstep (allNonneg_reserve_pages_decode m m1 slot _ hd h)

/-- `free_pages_resource` preserves nonnegativity. -/
theorem allNonneg_free_pages_resource (m : PageAttentionManager) (slot : Nat)
    (h : AllNonneg m) : AllNonneg (m.free_pages_resource slot) := by
  obtain ⟨hpool, hrows⟩ := h
  simp only [free_pages_resource]
  constructor
  · intro x hx
    rcases List.mem_append.mp hx with hl | hr
    · exact hpool x hl
    · exact of_decide_eq_true
        (List.mem_takeWhile_imp (p := fun x : Int => decide (0 ≤ x)) hr)
  · intro row hrow x hx
    rcases List.mem_or_eq_of_mem_set hrow with hmem | rfl
    · exact hrows row hmem x hx
    · rw [List.eq_of_mem_replicate hx]

/-- Every reachable state has only nonnegative page indices in the table and
in the free list. -/
theorem reach_allNonneg (m : PageAttentionManager) (h : Reach m) :
    AllNonneg m := by
  induction h with
  | construct b tp ps mp htp => exact allNonneg_init b tp ps mp htp
  | insert_step m slot seq_len _ ih =>
    exact allNonneg_reserve_pages_insert m slot seq_len ih
  | decode_step m m2 slot seq_len _ hstep ih =>
    exact allNonneg_reserve_pages_decode m m2 slot seq_len hstep ih
  | fill_step m m2 lens _ hstep ih =>
    exact allNonneg_fillAux lens (List.range m.batch_size) m m2 hstep ih
  | free_step m slot _ ih => exact allNonneg_free_pages_resource m slot ih

end PageAttentionManager

/-- C4: in every reachable manager state the page-table entries are
nonnegative, so the negative-index early exit of `free_pages_resource` never
fires: the call appends the whole fetched row walk to the free pool and the
pool grows by exactly `max_pages_per_sequence` entries, however many of the
slot's pages were live. -/
theorem C4_free_releases_max_pages (m : PageAttentionManager) (slot : Nat)
    (h : PageAttentionManager.Reach m) :
    (m.free_pages_resource slot).unused_pages
      = m.unused_pages ++ (List.range m.max_pages_per_sequence).map
          (fun i => jnpGetI (jnpRow m.page_indices slot) i) ∧
    (m.free_pages_resource slot).unused_pages.length
      = m.unused_pages.length + m.max_pages_per_sequence := by
  obtain ⟨hpool, hrows⟩ := PageAttentionManager.reach_allNonneg m h
  have hrownn : ∀ x ∈ jnpRow m.page_indices slot, 0 ≤ x := by
    rcases jnpRow_mem_or_nil m.page_indices slot with hmem | hnil
    · exact hrows _ hmem
    · rw [hnil]; intro x hx; exact absurd hx (List.not_mem_nil x)
  have hall : ∀ x ∈ (List.range m.max_pages_per_sequence).map
      (fun i => jnpGetI (jnpRow m.page_indices slot) i),
      (fun x : Int => decide (0 ≤ x)) x = true := by
    intro x hx
    obtain ⟨i, _, rfl⟩ := List.mem_map.mp hx
    exact decide_eq_true (jnpGetI_nonneg _ i hrownn)
  have hfull := takeWhile_eq_self_of_all _ _ hall
  constructor
  · simp only [PageAttentionManager.free_pages_resource, hfull]
  · simp only [PageAttentionManager.free_pages_resource, hfull,
      List.length_append, List.length_map, List.length_range]

/-- Witness for `C4_free_releases_max_pages` on the freshly constructed
manager with one slot, two pages and three-row page table. -/
theorem C4_free_releases_max_pages_witness :
    ((PageAttentionManager.init 1 2 1 3).free_pages_resource 0).unused_pages
      = (PageAttentionManager.init 1 2 1 3).unused_pages
        ++ (List.range (PageAttentionManager.init 1 2 1 3).max_pages_per_sequence).map
          (fun i => jnpGetI (jnpRow (PageAttentionManager.init 1 2 1 3).page_indices 0) i) ∧
    ((PageAttentionManager.init 1 2 1 3).free_pages_resource 0).unused_pages.length
      = (PageAttentionManager.init 1 2 1 3).unused_pages.length
        + (PageAttentionManager.init 1 2 1 3).max_pages_per_sequence :=
  C4_free_releases_max_pages (PageAttentionManager.init 1 2 1 3) 0
    (PageAttentionManager.Reach.construct 1 2 1 3 (by decide))

/-- Writing a slice shorter than the row keeps the tail of the row. -/
theorem setRowSlice_eq_append (row vals : List Int)
    (h : vals.length ≤ row.length) :
    setRowSlice row vals = vals ++ row.drop vals.length := by
  unfold setRowSlice
  apply List.take_of_length_le
  simp only [List.length_append, List.length_drop]
  omega

/-- Reading back a row just written to the table. -/
theorem jnpRow_set_self (t : List (List Int)) (slot : Nat) (r : List Int)
    (h : slot < t.length) : jnpRow (t.set slot r) slot = r := by
  unfold jnpRow
  rw [List.length_set]
  have hmin : min slot (t.length - 1) = slot := by omega
  rw [hmin, List.getD_eq_getElem _ _ (by rw [List.length_set]; omega)]
  exact List.getElem_set_self _

/-- C5: with a valid page size, a slot inside the table, a row long enough
and enough free pages, `reserve_pages_insert(slot, seq_len)` returns
`ceil(seq_len / page_size)` together with that many indices taken in order
from the front of the FIFO pool, removes them from the pool, writes them
into the first entries of the slot's row, and sets `lengths[slot]` to
`seq_len`. -/
theorem C5_reserve_insert_success (m : PageAttentionManager)
    (slot seq_len : Nat)
    (hps : 1 ≤ m.paged_attention_page_size)
    (hslot : slot < m.page_indices.length)
    (hpool : ceilNat seq_len m.paged_attention_page_size
      ≤ m.unused_pages.length)
    (hrow : ceilNat seq_len m.paged_attention_page_size
      ≤ (jnpRow m.page_indices slot).length) :
    (m.reserve_pages_insert slot seq_len).1
      = some (ceilNat seq_len m.paged_attention_page_size,
          m.unused_pages.take (ceilNat seq_len m.paged_attention_page_size)) ∧
    (m.reserve_pages_insert slot seq_len).2.unused_pages
      = m.unused_pages.drop (ceilNat seq_len m.paged_attention_page_size) ∧
    (m.reserve_pages_insert slot seq_len).2.lengths
      = m.lengths.set slot (seq_len : Int) ∧
    (m.reserve_pages_insert slot seq_len).2.page_indices
      = m.page_indices.set slot
          (m.unused_pages.take (ceilNat seq_len m.paged_attention_page_size)
            ++ (jnpRow m.page_indices slot).drop
                (ceilNat seq_len m.paged_attention_page_size)) := by
  have hnp := branch_count_eq_ceilNat seq_len m.paged_attention_page_size hps
  have hlen : (m.unused_pages.take
      (ceilNat seq_len m.paged_attention_page_size)).length
      = ceilNat seq_len m.paged_attention_page_size := by
    rw [List.length_take]
    omega
  have hsl : setRowSlice (jnpRow m.page_indices slot)
      (m.unused_pages.take (ceilNat seq_len m.paged_attention_page_size))
      = m.unused_pages.take (ceilNat seq_len m.paged_attention_page_size)
        ++ (jnpRow m.page_indices slot).drop
            (ceilNat seq_len m.paged_attention_page_size) := by
    rw [setRowSlice_eq_append _ _ (by omega), hlen]
  simp only [PageAttentionManager.reserve_pages_insert]
  rw [hnp, if_pos hpool, hsl]
  refine ⟨?_, rfl, rfl, rfl⟩
  rw [jnpRow_set_self _ _ _ hslot,
    List.take_append_of_le_length (by omega),
    List.take_of_length_le (by omega)]

/-- Witness for `C5_reserve_insert_success`: reserving five tokens with page
size four yields two pages. -/
theorem C5_reserve_insert_success_witness :
    ((1 ≤ (PageAttentionManager.init 2 8 4 3).paged_attention_page_size ∧
      0 < (PageAttentionManager.init 2 8 4 3).page_indices.length) ∧
     (ceilNat 5 (PageAttentionManager.init 2 8 4 3).paged_attention_page_size
        ≤ (PageAttentionManager.init 2 8 4 3).unused_pages.length ∧
      ceilNat 5 (PageAttentionManager.init 2 8 4 3).paged_attention_page_size
        ≤ (jnpRow (PageAttentionManager.init 2 8 4 3).page_indices 0).length)) ∧
    (((PageAttentionManager.init 2 8 4 3).reserve_pages_insert 0 5).1
      = some (2, [0, 1]) ∧
     ((PageAttentionManager.init 2 8 4 3).reserve_pages_insert 0 5).2.unused_pages
      = [2, 3, 4, 5, 6, 7] ∧
     ((PageAttentionManager.init 2 8 4 3).reserve_pages_insert 0 5).2.lengths
      = [5, 0] ∧
     ((PageAttentionManager.init 2 8 4 3).reserve_pages_insert 0 5).2.page_indices
      = [[0, 1, 7], [7, 7, 7]]) := by
  have h := C5_reserve_insert_success (PageAttentionManager.init 2 8 4 3) 0 5
    (by decide) (by decide) (by decide) (by decide)
  exact ⟨⟨⟨by decide, by decide⟩, ⟨by decide, by decide⟩⟩, by
    obtain ⟨h1, h2, h3, h4⟩ := h
    refine ⟨?_, ?_, ?_, ?_⟩
    · rw [h1]; decide
    · rw [h2]; decide
    · rw [h3]; decide
    · rw [h4]; decide⟩

/-- C6: `reserve_pages_decode(slot, new_len)` dequeues exactly the head of
the free pool and writes it at row position `new_len / page_size` when
`new_len` is a positive multiple of the page size, and for any other
`new_len` it returns with the state unchanged, acquiring no page. -/
theorem C6_reserve_decode_boundary (m : PageAttentionManager) (slot : Nat)
    (seq_len : Int) (i : Int) (rest : List Int)
    (hpool : m.unused_pages = i :: rest) :
    ((0 < seq_len ∧ seq_len.emod m.paged_attention_page_size = 0) →
      m.reserve_pages_decode slot seq_len
        = some { m with
            unused_pages := rest
            page_indices := m.page_indices.set slot
              ((jnpRow m.page_indices slot).set
                (seq_len.ediv m.paged_attention_page_size).toNat i) }) ∧
    (¬(0 < seq_len ∧ seq_len.emod m.paged_attention_page_size = 0) →
      m.reserve_pages_decode slot seq_len = some m) := by
  constructor
  · intro hcond
    simp only [PageAttentionManager.reserve_pages_decode, if_pos hcond, hpool]
  · intro hcond
    simp only [PageAttentionManager.reserve_pages_decode, if_neg hcond]

/-- Witness for `C6_reserve_decode_boundary`: growing at `new_len = 4` with
page size four writes pool head `0` at row position `1`. -/
theorem C6_reserve_decode_boundary_witness :
    (PageAttentionManager.init 1 8 4 3).unused_pages = 0 :: [1, 2, 3, 4, 5, 6, 7] ∧
    (((0 : Int) < 4 ∧ (4 : Int).emod
        (PageAttentionManager.init 1 8 4 3).paged_attention_page_size = 0) →
      (PageAttentionManager.init 1 8 4 3).reserve_pages_decode 0 4
        = some { PageAttentionManager.init 1 8 4 3 with
            unused_pages := [1, 2, 3, 4, 5, 6, 7]
            page_indices := (PageAttentionManager.init 1 8 4 3).page_indices.set 0
              ((jnpRow (PageAttentionManager.init 1 8 4 3).page_indices 0).set
                ((4 : Int).ediv
                  (PageAttentionManager.init 1 8 4 3).paged_attention_page_size).toNat
                0) }) ∧
    (¬((0 : Int) < 4 ∧ (4 : Int).emod
        (PageAttentionManager.init 1 8 4 3).paged_attention_page_size = 0) →
      (PageAttentionManager.init 1 8 4 3).reserve_pages_decode 0 4
        = some (PageAttentionManager.init 1 8 4 3)) :=
  ⟨by decide,
    C6_reserve_decode_boundary (PageAttentionManager.init 1 8 4 3) 0 4 0
      [1, 2, 3, 4, 5, 6, 7] (by decide)⟩

/-- C9: after `get_page_token_indices(lens)` the stored length vector is
`lens` advanced by one at every active slot: entry `slot` becomes
`lens[slot] + 1` when `lens[slot] > 0` and `0` when `lens[slot] = 0`. -/
theorem C9_lengths_advanced (m : PageAttentionManager) (lens : List Int)
    (slot : Nat) (h : slot < lens.length) :
    (0 < lens.getD slot 0 →
      (m.get_page_token_indices lens).2.lengths.getD slot 0
        = lens.getD slot 0 + 1) ∧
    (lens.getD slot 0 = 0 →
      (m.get_page_token_indices lens).2.lengths.getD slot 0 = 0) := by
  have hlen : slot < (lens.map
      (fun l : Int => if l = 0 then 0 else l + 1)).length := by
    rw [List.length_map]; exact h
  have hres : (m.get_page_token_indices lens).2.lengths.getD slot 0
      = if lens.getD slot 0 = 0 then 0 else lens.getD slot 0 + 1 := by
    simp only [PageAttentionManager.get_page_token_indices]
    rw [List.getD_eq_getElem _ _ hlen, List.getElem_map,
      List.getD_eq_getElem _ _ h]
  constructor
  · intro hpos
    rw [hres, if_neg (by omega)]
  · intro hzero
    rw [hres, if_pos hzero]

/-- Witness for `C9_lengths_advanced` at `lens = [2]`. -/
theorem C9_lengths_advanced_witness :
    0 < ([(2 : Int)]).length ∧
    ((0 < ([(2 : Int)]).getD 0 0 →
      ((PageAttentionManager.init 1 2 1 2).get_page_token_indices
          [(2 : Int)]).2.lengths.getD 0 0 = ([(2 : Int)]).getD 0 0 + 1) ∧
     (([(2 : Int)]).getD 0 0 = 0 →
      ((PageAttentionManager.init 1 2 1 2).get_page_token_indices
          [(2 : Int)]).2.lengths.getD 0 0 = 0)) :=
  ⟨by decide,
    C9_lengths_advanced (PageAttentionManager.init 1 2 1 2) [(2 : Int)] 0
      (by decide)⟩

namespace PageAttentionManager

/-- Every triple emitted by the step-indexer loop carries a slot whose
length entry is nonzero. -/
theorem gptiAux_mem_active (m : PageAttentionManager) (lens : List Int) :
    ∀ (slots : List Nat) (offset : Int) (t : Int × Int × Nat),
      t ∈ gptiAux m lens offset slots → jnpGetI lens t.2.2 ≠ 0 := by
  intro slots
  induction slots with
  | nil =>
    intro offset t ht
    simp only [gptiAux] at ht
    exact absurd ht (List.not_mem_nil t)
  | cons slot rest ih =>
    intro offset t ht
    simp only [gptiAux] at ht
    by_cases h : jnpGetI lens slot = 0
    · rw [if_pos h] at ht
      exact ih offset t ht
    · rw [if_neg h] at ht
      rcases List.mem_cons.mp ht with rfl | htail
      · exact h
      · exact ih _ t htail

/-- The `j`-th triple emitted by the step-indexer loop started at `offset`
has its write offset in the `j`-th page-sized window after `offset`. -/
theorem gptiAux_window (m : PageAttentionManager) (lens : List Int)
    (hps : 1 ≤ m.paged_attention_page_size) :
    ∀ (slots : List Nat) (offset : Int) (j : Nat),
      j < (gptiAux m lens offset slots).length →
      offset + j * (m.paged_attention_page_size : Int)
          ≤ ((gptiAux m lens offset slots).getD j (0, 0, 0)).2.1 ∧
        ((gptiAux m lens offset slots).getD j (0, 0, 0)).2.1
          < offset + j * (m.paged_attention_page_size : Int)
            + m.paged_attention_page_size := by
  intro slots
  induction slots with
  | nil =>
    intro offset j hj
    simp only [gptiAux, List.length_nil] at hj
    omega
  | cons slot rest ih =>
    intro offset j hj
    simp only [gptiAux] at hj ⊢
    have hps2 : (0 : Int) < (m.paged_attention_page_size : Int) := by
      exact_mod_cast hps
    by_cases h : jnpGetI lens slot = 0
    · rw [if_pos h] at hj ⊢
      exact ih offset j hj
    · rw [if_neg h] at hj ⊢
      cases j with
      | zero =>
        rw [List.getD_cons_zero]
        have h1 := Int.emod_nonneg (jnpGetI lens slot)
          (by omega : (m.paged_attention_page_size : Int) ≠ 0)
        have h2 := Int.emod_lt_of_pos (jnpGetI lens slot) hps2
        constructor
        · simpa using h1
        · simpa using h2
      | succ j =>
        rw [List.getD_cons_succ]
        rw [List.length_cons] at hj
        have hih := ih (offset + m.paged_attention_page_size) j (by omega)
        have hcast : ((j + 1 : Nat) : Int) * (m.paged_attention_page_size : Int)
            = (j : Int) * (m.paged_attention_page_size : Int)
              + m.paged_attention_page_size := by
          push_cast
          ring
        rw [hcast]
        omega

end PageAttentionManager

/-- C8: `get_page_token_indices(lens)` emits no triple for a slot whose
length entry is zero, and the emitted write offsets lie in disjoint
page-sized regions in emission order, hence are pairwise distinct. -/
theorem C8_step_targets_distinct (m : PageAttentionManager) (lens : List Int)
    (hps : 1 ≤ m.paged_attention_page_size) :
    (∀ t ∈ (m.get_page_token_indices lens).1, jnpGetI lens t.2.2 ≠ 0) ∧
    (∀ j, j < (m.get_page_token_indices lens).1.length →
      (j : Int) * (m.paged_attention_page_size : Int)
          ≤ (((m.get_page_token_indices lens).1.getD j (0, 0, 0)).2.1) ∧
        (((m.get_page_token_indices lens).1.getD j (0, 0, 0)).2.1)
          < ((j : Int) + 1) * (m.paged_attention_page_size : Int)) ∧
    ((m.get_page_token_indices lens).1.map (fun t => t.2.1)).Pairwise
      (fun a b => a ≠ b) := by
  have hwin := PageAttentionManager.gptiAux_window m lens hps
    (List.range m.batch_size) 0
  have hwin2 : ∀ j, j < (m.get_page_token_indices lens).1.length →
      (j : Int) * (m.paged_attention_page_size : Int)
          ≤ (((m.get_page_token_indices lens).1.getD j (0, 0, 0)).2.1) ∧
        (((m.get_page_token_indices lens).1.getD j (0, 0, 0)).2.1)
          < ((j : Int) + 1) * (m.paged_attention_page_size : Int) := by
    intro j hj
    have hunf : (m.get_page_token_indices lens).1
        = PageAttentionManager.gptiAux m lens 0 (List.range m.batch_size) := rfl
    rw [hunf] at hj
    rw [hunf]
    have h := hwin j hj
    have hcast : ((j : Int) + 1) * (m.paged_attention_page_size : Int)
        = (j : Int) * (m.paged_attention_page_size : Int)
          + m.paged_attention_page_size := by ring
    rw [hcast]
    omega
  refine ⟨?_, hwin2, ?_⟩
  · intro t ht
    exact PageAttentionManager.gptiAux_mem_active m lens
      (List.range m.batch_size) 0 t ht
  · rw [List.pairwise_iff_getElem]
    intro i j hi hj hij
    rw [List.length_map] at hi hj
    have hgi := hwin2 i hi
    have hgj := hwin2 j hj
    rw [List.getD_eq_getElem _ _ hi] at hgi
    rw [List.getD_eq_getElem _ _ hj] at hgj
    rw [List.getElem_map, List.getElem_map]
    have hmono : ((i : Int) + 1) * (m.paged_attention_page_size : Int)
        ≤ (j : Int) * (m.paged_attention_page_size : Int) := by
      have hij2 : ((i : Int) + 1) ≤ (j : Int) := by exact_mod_cast hij
      have hps2 : (0 : Int) ≤ (m.paged_attention_page_size : Int) := by
        exact_mod_cast Nat.zero_le _
      exact mul_le_mul_of_nonneg_right hij2 hps2
    intro heq
    rw [heq] at hgi
    omega

/-- Witness for `C8_step_targets_distinct` at `lens = [5, 0]` (slot 1
inactive). -/
theorem C8_step_targets_distinct_witness :
    1 ≤ (PageAttentionManager.init 2 8 4 3).paged_attention_page_size ∧
    ((∀ t ∈ ((PageAttentionManager.init 2 8 4 3).get_page_token_indices
        [5, 0]).1, jnpGetI [5, 0] t.2.2 ≠ 0) ∧
     (∀ j, j < ((PageAttentionManager.init 2 8 4 3).get_page_token_indices
          [5, 0]).1.length →
        (j : Int) * ((PageAttentionManager.init 2 8 4 3).paged_attention_page_size : Int)
            ≤ ((((PageAttentionManager.init 2 8 4 3).get_page_token_indices
                [5, 0]).1.getD j (0, 0, 0)).2.1) ∧
          ((((PageAttentionManager.init 2 8 4 3).get_page_token_indices
              [5, 0]).1.getD j (0, 0, 0)).2.1)
            < ((j : Int) + 1)
              * ((PageAttentionManager.init 2 8 4 3).paged_attention_page_size : Int)) ∧
     (((PageAttentionManager.init 2 8 4 3).get_page_token_indices
        [5, 0]).1.map (fun t => t.2.1)).Pairwise (fun a b => a ≠ b)) :=
  ⟨by decide,
    C8_step_targets_distinct (PageAttentionManager.init 2 8 4 3) [5, 0]
      (by decide)⟩

/-- Setting one page leaves every other position of the cache unchanged. -/
theorem getD_set_ne (l : List (List Int)) (n k : Nat) (a : List Int)
    (h : n ≠ k) : (l.set n a).getD k [] = l.getD k [] := by
  rcases Nat.lt_or_ge k l.length with hk | hk
  · rw [List.getD_eq_getElem _ _ (by simpa), List.getD_eq_getElem _ _ hk]
    exact List.getElem_set_ne h _
  · rw [List.getD_eq_default _ _ (by simpa), List.getD_eq_default _ _ hk]

/-- A page just written in range is read back. -/
theorem getD_set_self (l : List (List Int)) (n : Nat) (a : List Int)
    (h : n < l.length) : (l.set n a).getD n [] = a := by
  rw [List.getD_eq_getElem _ _ (by simpa)]
  exact List.getElem_set_self _

/-- `scatterPages` preserves the page count of the cache. -/
theorem scatterPages_length : ∀ (idxs : List Int) (pgs : List (List Int))
    (c : List (List Int)), (scatterPages c idxs pgs).length = c.length := by
  intro idxs
  induction idxs with
  | nil => intro pgs c; simp only [scatterPages]
  | cons i is ih =>
    intro pgs c
    cases pgs with
    | nil => simp only [scatterPages]
    | cons pg rest =>
      simp only [scatterPages]
      rw [ih]
      split <;> split <;> simp [List.length_set]

/-- A cache position whose index is scattered to by none of the (nonnegative)
indices is unchanged by the scatter. -/
theorem scatterPages_getD_not_mem : ∀ (idxs : List Int)
    (pgs : List (List Int)) (c : List (List Int)) (k : Nat),
    (∀ i ∈ idxs, 0 ≤ i) → (k : Int) ∉ idxs →
    (scatterPages c idxs pgs).getD k [] = c.getD k [] := by
  intro idxs
  induction idxs with
  | nil => intro pgs c k _ _; simp only [scatterPages]
  | cons i is ih =>
    intro pgs c k hnn hk
    cases pgs with
    | nil => simp only [scatterPages]
    | cons pg rest =>
      have hi : 0 ≤ i := hnn i (List.mem_cons_self i is)
      simp only [scatterPages]
      rw [if_neg (by omega : ¬ i < 0), if_pos hi]
      have hne : i.toNat ≠ k := by
        intro he
        apply hk
        have : (k : Int) = i := by omega
        rw [this]
        exact List.mem_cons_self i is
      rw [ih rest _ k (fun x hx => hnn x (List.mem_cons_of_mem _ hx))
        (fun hmem => hk (List.mem_cons_of_mem _ hmem))]
      exact getD_set_ne c i.toNat k pg hne

/-- After scattering pairwise distinct in-range nonnegative indices, the
cache holds the `k`-th page at the `k`-th index. -/
theorem scatterPages_getD_mem : ∀ (idxs : List Int) (pgs : List (List Int))
    (c : List (List Int)) (k : Nat),
    idxs.Nodup → (∀ i ∈ idxs, 0 ≤ i ∧ i < (c.length : Int)) →
    pgs.length = idxs.length → k < idxs.length →
    (scatterPages c idxs pgs).getD (idxs.getD k 0).toNat []
      = pgs.getD k [] := by
  intro idxs
  induction idxs with
  | nil =>
    intro pgs c k _ _ _ hk
    simp only [List.length_nil] at hk
    omega
  | cons i is ih =>
    intro pgs c k hnd hrange hlen hk
    cases pgs with
    | nil =>
      simp only [List.length_nil, List.length_cons] at hlen
      omega
    | cons pg rest =>
      obtain ⟨hhead, htail⟩ := List.nodup_cons.mp hnd
      have hi := hrange i (List.mem_cons_self i is)
      simp only [scatterPages]
      rw [if_neg (by omega : ¬ i < 0), if_pos hi.1]
      cases k with
      | zero =>
        rw [List.getD_cons_zero, List.getD_cons_zero]
        rw [scatterPages_getD_not_mem is rest _ i.toNat
          (fun x hx => (hrange x (List.mem_cons_of_mem _ hx)).1)
          (by rw [Int.toNat_of_nonneg hi.1]; exact hhead)]
        exact getD_set_self c i.toNat pg (by omega)
      | succ k =>
        rw [List.getD_cons_succ, List.getD_cons_succ]
        rw [List.length_cons, List.length_cons] at hlen
        rw [List.length_cons] at hk
        apply ih rest (c.set i.toNat pg) k htail ?_ (by omega) (by omega)
        intro x hx
        rw [List.length_set]
        exact hrange x (List.mem_cons_of_mem _ hx)

/-- The paging reshape produces `n` pages. -/
theorem toPages_length (ps : Nat) : ∀ (n : Nat) (xs : List Int),
    (toPages ps n xs).length = n := by
  intro n
  induction n with
  | zero => intro xs; rfl
  | succ n ih =>
    intro xs
    simp only [toPages, List.length_cons, ih]

/-- Flattening the paging reshape of an exactly page-aligned buffer recovers
the buffer. -/
theorem toPages_flatten (ps : Nat) : ∀ (n : Nat) (xs : List Int),
    xs.length = n * ps → (toPages ps n xs).flatten = xs := by
  intro n
  induction n with
  | zero =>
    intro xs h
    rw [Nat.zero_mul] at h
    rw [List.eq_nil_of_length_eq_zero h]
    rfl
  | succ n ih =>
    intro xs h
    simp only [toPages, List.flatten_cons]
    rw [ih (xs.drop ps) (by rw [List.length_drop, Nat.succ_mul] at *; omega)]
    exact List.take_append_drop ps xs

/-- Flattening pages of a common length `ps` multiplies the count by `ps`. -/
theorem flatten_map_length_const (ps : Nat) (g : Int → List Int) :
    ∀ (t : List Int), (∀ i ∈ t, (g i).length = ps) →
      ((t.map g).flatten).length = t.length * ps := by
  intro t
  induction t with
  | nil => intro _; simp
  | cons a t ih =>
    intro h
    simp only [List.map_cons, List.flatten_cons, List.length_append,
      List.length_cons]
    rw [ih (fun x hx => h x (List.mem_cons_of_mem _ hx)),
      h a (List.mem_cons_self a t), Nat.succ_mul]
    omega

/-- A nonnegative in-range gather index is neither wrapped nor clamped. -/
theorem jnpIdx_of_nonneg_lt (n : Nat) (i : Int) (h0 : 0 ≤ i)
    (hn : i < (n : Int)) : jnpIdx n i = i.toNat := by
  unfold jnpIdx
  rw [if_neg (by omega)]
  omega

namespace PageAttentionManager

/-- Inserting a prefill of `seq_len` positions at `ceil(seq_len/page_size)`
pairwise distinct in-range pages and then compressing along a row whose
live entries are those pages recovers exactly the prefill values. -/
theorem insertOne_compress_roundtrip (ps : Nat) (hps : 1 ≤ ps)
    (seq_len : Nat) (prefill : List Int) (cache : List (List Int))
    (idxs : List Int) (tep_kv : List Int) (r : List Int)
    (hpre : prefill.length = seq_len)
    (hidxlen : idxs.length = ceilNat seq_len ps)
    (hnodup : idxs.Nodup)
    (hrange : ∀ i ∈ idxs, 0 ≤ i ∧ i < (cache.length : Int))
    (htep : tep_kv.length = ceilNat seq_len ps * ps)
    (hrow : r.take (ceilNat seq_len ps) = idxs) :
    _compress_cache (insertOneCache ps idxs tep_kv prefill cache)
      (seq_len : Int) r = prefill := by
  have hps0 : 0 < ps := hps
  have hseq_le : seq_len ≤ ceilNat seq_len ps * ps := le_ceilNat_mul seq_len ps hps
  simp only [insertOneCache, _compress_cache]
  set t : List Int := (prefill ++ tep_kv.drop prefill.length).take tep_kv.length
    with ht
  have htlen : t.length = ceilNat seq_len ps * ps := by
    rw [ht]
    simp only [List.length_take, List.length_append, List.length_drop, htep,
      hpre]
    omega
  have hteq : t = prefill ++ tep_kv.drop seq_len := by
    rw [ht, hpre]
    apply List.take_of_length_le
    simp only [List.length_append, List.length_drop, htep]
    omega
  have hdiv : t.length / ps = ceilNat seq_len ps := by
    rw [htlen]
    exact Nat.mul_div_cancel _ hps0
  rw [hdiv]
  have hpagedlen := toPages_length ps (ceilNat seq_len ps) t
  have hflat := toPages_flatten ps (ceilNat seq_len ps) t htlen
  have hc2len := scatterPages_length idxs (toPages ps (ceilNat seq_len ps) t)
    cache
  have hmap : idxs.map (fun i =>
      jnpGetPage (scatterPages cache idxs (toPages ps (ceilNat seq_len ps) t)) i)
      = toPages ps (ceilNat seq_len ps) t := by
    apply List.ext_getElem
    · rw [List.length_map, hpagedlen, hidxlen]
    · intro k hk1 hk2
      rw [List.length_map] at hk1
      rw [List.getElem_map]
      have hik : 0 ≤ idxs[k] ∧ idxs[k] < (cache.length : Int) :=
        hrange (idxs[k]) (List.getElem_mem hk1)
      have hmem := scatterPages_getD_mem idxs (toPages ps (ceilNat seq_len ps) t)
        cache k hnodup hrange (by rw [hpagedlen, hidxlen]) hk1
      rw [List.getD_eq_getElem idxs 0 hk1] at hmem
      rw [List.getD_eq_getElem _ [] hk2] at hmem
      simp only [jnpGetPage]
      rw [hc2len, jnpIdx_of_nonneg_lt cache.length _ hik.1 hik.2]
      exact hmem
  have hr : r = idxs ++ r.drop (ceilNat seq_len ps) := by
    conv_lhs => rw [← List.take_append_drop (ceilNat seq_len ps) r]
    rw [hrow]
  rw [Int.toNat_natCast, hr, List.map_append, List.flatten_append, hmap, hflat]
  rw [List.take_append_of_le_length (by rw [htlen]; exact hseq_le)]
  rw [hteq, List.take_append_of_le_length (by rw [hpre])]
  rw [← hpre, List.take_length]

end PageAttentionManager

/-- C7: inserting a prefill KV of any length `seq_len ≥ 1` (page-aligned or
not) into the decode store at the pairwise distinct in-range pages reserved
for a slot and then extracting the slot with `get_compress_kv_cache` yields
exactly the original prefill KV truncated to its `seq_len` valid positions
(the scratch-buffer tail never reaches the output). -/
theorem C7_insert_compress_roundtrip (m : PageAttentionManager)
    (prefill_caches : List (List Int × List Int))
    (decode_caches : List (List (List Int) × List (List Int)))
    (idxs tep_kv : List Int) (slot : Nat) (seq_len : Nat)
    (hps : 1 ≤ m.paged_attention_page_size)
    (hseq : 1 ≤ seq_len)
    (hzip : decode_caches.length = prefill_caches.length)
    (hpre : ∀ p ∈ prefill_caches, p.1.length = seq_len ∧ p.2.length = seq_len)
    (hdc : ∀ d ∈ decode_caches,
      d.1.length = m.paged_attention_total_num_pages ∧
        d.2.length = m.paged_attention_total_num_pages)
    (hidxlen : idxs.length = ceilNat seq_len m.paged_attention_page_size)
    (hnodup : idxs.Nodup)
    (hrange : ∀ i ∈ idxs,
      0 ≤ i ∧ i < (m.paged_attention_total_num_pages : Int))
    (htep : tep_kv.length
      = ceilNat seq_len m.paged_attention_page_size
        * m.paged_attention_page_size)
    (hlens : jnpGetI m.lengths slot = (seq_len : Int))
    (hrow : (jnpRow m.page_indices slot).take
        (ceilNat seq_len m.paged_attention_page_size) = idxs) :
    m.get_compress_kv_cache
        (m.insert_prefill_cache prefill_caches decode_caches idxs tep_kv) slot
      = prefill_caches := by
  simp only [PageAttentionManager.get_compress_kv_cache,
    PageAttentionManager.insert_prefill_cache, hlens, List.map_map]
  apply List.ext_getElem
  · rw [List.length_map, List.length_zip, hzip]
    exact Nat.min_self _
  · intro j h1 h2
    rw [List.length_map, List.length_zip] at h1
    have hj1 : j < decode_caches.length := by omega
    have hj2 : j < prefill_caches.length := h2
    rw [List.getElem_map]
    rw [List.getElem_zip]
    have hd := hdc (decode_caches[j]) (List.getElem_mem hj1)
    have hp := hpre (prefill_caches[j]) (List.getElem_mem hj2)
    refine Prod.ext ?_ ?_
    · exact PageAttentionManager.insertOne_compress_roundtrip
        m.paged_attention_page_size hps seq_len (prefill_caches[j]).1
        (decode_caches[j]).1 idxs tep_kv (jnpRow m.page_indices slot) hp.1
        hidxlen hnodup
        (fun i hi => ⟨(hrange i hi).1, by rw [hd.1]; exact (hrange i hi).2⟩)
        htep hrow
    · exact PageAttentionManager.insertOne_compress_roundtrip
        m.paged_attention_page_size hps seq_len (prefill_caches[j]).2
        (decode_caches[j]).2 idxs tep_kv (jnpRow m.page_indices slot) hp.2
        hidxlen hnodup
        (fun i hi => ⟨(hrange i hi).1, by rw [hd.2]; exact (hrange i hi).2⟩)
        htep hrow

/-- Concrete manager used by the insertion round-trip witness: one slot of
length 3, row `[0, 1, 2]`, three pages of size two. -/
def mC7 : PageAttentionManager :=
  { batch_size := 1, paged_attention_total_num_pages := 3,
    paged_attention_page_size := 2, max_pages_per_sequence := 3,
    unused_pages := [2], page_indices := [[0, 1, 2]], lengths := [3] }

/-- Concrete one-layer prefill KV of three positions. -/
def pcC7 : List (List Int × List Int) := [([1, 2, 3], [4, 5, 6])]

/-- Concrete one-layer decode store of three pages of size two. -/
def dcC7 : List (List (List Int) × List (List Int)) :=
  [([[9, 9], [9, 9], [9, 9]], [[8, 8], [8, 8], [8, 8]])]

/-- Witness for `C7_insert_compress_roundtrip` with a non-page-aligned
length 3 and page size 2. -/
theorem C7_insert_compress_roundtrip_witness :
    ((1 ≤ mC7.paged_attention_page_size ∧ (1 : Nat) ≤ 3 ∧
      dcC7.length = pcC7.length ∧
      (∀ p ∈ pcC7, p.1.length = 3 ∧ p.2.length = 3) ∧
      (∀ d ∈ dcC7, d.1.length = mC7.paged_attention_total_num_pages ∧
        d.2.length = mC7.paged_attention_total_num_pages)) ∧
     (([0, 1] : List Int).length = ceilNat 3 mC7.paged_attention_page_size ∧
      ([0, 1] : List Int).Nodup ∧
      (∀ i ∈ ([0, 1] : List Int),
        0 ≤ i ∧ i < (mC7.paged_attention_total_num_pages : Int)) ∧
      ([0, 0, 0, 0] : List Int).length
        = ceilNat 3 mC7.paged_attention_page_size
          * mC7.paged_attention_page_size ∧
      jnpGetI mC7.lengths 0 = ((3 : Nat) : Int) ∧
      (jnpRow mC7.page_indices 0).take
        (ceilNat 3 mC7.paged_attention_page_size) = [0, 1])) ∧
    mC7.get_compress_kv_cache
        (mC7.insert_prefill_cache pcC7 dcC7 [0, 1] [0, 0, 0, 0]) 0 = pcC7 :=
  ⟨⟨⟨by decide, by decide, by decide, by decide, by decide⟩,
    ⟨by decide, by decide, by decide, by decide, by decide, by decide⟩⟩,
   C7_insert_compress_roundtrip mC7 pcC7 dcC7 [0, 1] [0, 0, 0, 0] 0 3
     (by decide) (by decide) (by decide) (by decide) (by decide) (by decide)
     (by decide) (by decide) (by decide) (by decide) (by decide)⟩

/-- Truncating the flattened gather at `l` positions that fit inside the
first `np` gathered pages makes the result depend only on those pages. -/
theorem flatten_take_eq_of_agree (ps : Nat) (g1 g2 : Int → List Int)
    (r : List Int) (np l : Nat)
    (hag : ∀ i ∈ r.take np, g1 i = g2 i ∧ (g1 i).length = ps)
    (hl : l ≤ np * ps) :
    ((r.map g1).flatten).take l = ((r.map g2).flatten).take l := by
  have hmapeq : (r.take np).map g1 = (r.take np).map g2 :=
    List.map_congr_left (fun x hx => (hag x hx).1)
  have hlen : (((r.take np).map g1).flatten).length = (r.take np).length * ps :=
    flatten_map_length_const ps g1 (r.take np) (fun i hi => (hag i hi).2)
  rcases Nat.lt_or_ge r.length np with hr | hr
  · have hfull : r.take np = r := List.take_of_length_le (by omega)
    rw [hfull] at hmapeq
    rw [hmapeq]
  · have htk : (r.take np).length = np := by
      rw [List.length_take]
      omega
    have hsplit : r = r.take np ++ r.drop np := (List.take_append_drop np r).symm
    conv_lhs => rw [hsplit]
    conv_rhs => rw [hsplit]
    rw [List.map_append, List.map_append, List.flatten_append _ _,
      List.flatten_append _ _]
    rw [List.take_append_of_le_length (by rw [hlen, htk]; exact hl),
      List.take_append_of_le_length
        (by rw [← hmapeq, hlen, htk]; exact hl)]
    rw [hmapeq]

/-- C10: the output of `get_compress_kv_cache(decode_caches, slot)` depends
only on the pages referenced by the slot's live row prefix of
`ceil(length/page_size)` entries: two stores whose gathered pages agree
there (with the page shape `page_size`) compress identically, whatever the
filler row entries reference. -/
theorem C10_compress_reads_only_live_pages (m : PageAttentionManager)
    (d1 d2 : List (List (List Int) × List (List Int))) (slot : Nat)
    (hps : 1 ≤ m.paged_attention_page_size)
    (hag : List.Forall₂ (fun p q =>
      ∀ i ∈ (jnpRow m.page_indices slot).take
          (ceilNat (jnpGetI m.lengths slot).toNat
            m.paged_attention_page_size),
        (jnpGetPage p.1 i = jnpGetPage q.1 i ∧
          (jnpGetPage p.1 i).length = m.paged_attention_page_size) ∧
        (jnpGetPage p.2 i = jnpGetPage q.2 i ∧
          (jnpGetPage p.2 i).length = m.paged_attention_page_size)) d1 d2) :
    m.get_compress_kv_cache d1 slot = m.get_compress_kv_cache d2 slot := by
  have hl : (jnpGetI m.lengths slot).toNat
      ≤ ceilNat (jnpGetI m.lengths slot).toNat m.paged_attention_page_size
        * m.paged_attention_page_size :=
    le_ceilNat_mul _ _ hps
  simp only [PageAttentionManager.get_compress_kv_cache]
  induction hag with
  | nil => rfl
  | cons hpq htail ih =>
    simp only [List.map_cons]
    rw [ih]
    congr 1
    refine Prod.ext ?_ ?_
    · simp only [PageAttentionManager._compress_cache]
      exact flatten_take_eq_of_agree m.paged_attention_page_size _ _
        (jnpRow m.page_indices slot) _ _ (fun i hi => (hpq i hi).1) hl
    · simp only [PageAttentionManager._compress_cache]
      exact flatten_take_eq_of_agree m.paged_attention_page_size _ _
        (jnpRow m.page_indices slot) _ _ (fun i hi => (hpq i hi).2) hl

/-- Concrete manager used by the noninterference witness: one slot of
length 1, row `[0, 1]`, so only page 0 is live. -/
def mC10 : PageAttentionManager :=
  { batch_size := 1, paged_attention_total_num_pages := 2,
    paged_attention_page_size := 2, max_pages_per_sequence := 2,
    unused_pages := [], page_indices := [[0, 1]], lengths := [1] }

/-- First concrete decode store for the noninterference witness. -/
def d1C10 : List (List (List Int) × List (List Int)) :=
  [([[1, 2], [3, 4]], [[5, 6], [7, 8]])]

/-- Second concrete decode store: agrees with the first on live page 0 and
differs on the filler-referenced page 1. -/
def d2C10 : List (List (List Int) × List (List Int)) :=
  [([[1, 2], [9, 9]], [[5, 6], [7, 7]])]

/-- Witness for `C10_compress_reads_only_live_pages`: the two stores differ
on the non-live page yet compress identically. -/
theorem C10_compress_reads_only_live_pages_witness :
    1 ≤ mC10.paged_attention_page_size ∧
    List.Forall₂ (fun p q =>
      ∀ i ∈ (jnpRow mC10.page_indices 0).take
          (ceilNat (jnpGetI mC10.lengths 0).toNat
            mC10.paged_attention_page_size),
        (jnpGetPage p.1 i = jnpGetPage q.1 i ∧
          (jnpGetPage p.1 i).length = mC10.paged_attention_page_size) ∧
        (jnpGetPage p.2 i = jnpGetPage q.2 i ∧
          (jnpGetPage p.2 i).length = mC10.paged_attention_page_size))
      d1C10 d2C10 ∧
    mC10.get_compress_kv_cache d1C10 0 = mC10.get_compress_kv_cache d2C10 0 :=
  ⟨by decide,
   List.Forall₂.cons (by decide) List.Forall₂.nil,
   C10_compress_reads_only_live_pages mC10 d1C10 d2C10 0 (by decide)
     (List.Forall₂.cons (by decide) List.Forall₂.nil)⟩
